import Mathlib

/-!
Shallow embedding of the wikipedia-dump-converter sources (src/sql.rs,
src/utils.rs, src/pages.rs, src/links.rs, src/main.rs) in Lean 4,
together with theorems settling the frozen claims about the program.

Modelling conventions:
* Rust strings are modelled as lists of characters (`Str`); the lexer in
  src/sql.rs itself works over a `Vec<char>` of the line, so this is the
  representation the source uses.
* Machine integers are natural numbers with explicit bounds: `u64max` and
  `u32max` are the largest representable values, and the Rust
  `str::parse::<uN>` functions are modelled by `parseNat?` which fails on
  overflow exactly as Rust does.
* Fallible Rust functions returning `Result` are modelled with `Except`.
  Error payloads that the source builds with a debug format string
  (for example the text inside PageError::SQL) are modelled as the
  underlying data (the list of field values) rather than its printed
  rendering; no claim depends on the rendering.
* The Rust regex in match_triple uses a backslash-d character class, which
  is Unicode-aware in Rust. It is modelled as ASCII digits: every string
  captured by that class immediately flows into an ASCII-only integer
  parse, so a non-ASCII digit produces the same RDF error either way and
  the observable behaviour of from_rdf is unchanged.
-/

/-- Rust String / str, modelled as the list of its characters. -/
abbrev Str := List Char

/-- The single-quote character (ASCII 39), the SQL string delimiter. -/
def sqc : Char := Char.ofNat 39

/-- Largest value of a Rust u64. -/
def u64max : Nat := 2 ^ 64 - 1

/-- Largest value of a Rust u32. -/
def u32max : Nat := 2 ^ 32 - 1

/-- Numeric value of a decimal digit character. -/
def dval (c : Char) : Nat := c.toNat - 48

/-- Value of a string of decimal digit characters, most significant first.
This is the accumulation Rust performs in str::parse for unsigned types. -/
def charsVal (s : Str) : Nat := s.foldl (fun a c => a * 10 + dval c) 0

/-- Drop the optional leading plus sign accepted by Rust str::parse for
unsigned integer types. -/
def stripPlus : Str → Str
  | c :: rest => if c = '+' then rest else c :: rest
  | [] => []

/-- Digit-string part of Rust str::parse::<uN>: one or more ASCII digits,
rejecting values beyond `bound` (the overflow check). -/
def parseDigits? (t : Str) (bound : Nat) : Option Nat :=
  if t.isEmpty then none
  else if t.all Char.isDigit then
    if charsVal t ≤ bound then some (charsVal t) else none
  else none

/-- Rust str::parse::<uN> for an unsigned type with maximum value `bound`:
an optional leading plus sign, then one or more ASCII digits, rejecting
overflow. Returns the parsed value as a natural number. -/
def parseNat? (s : Str) (bound : Nat) : Option Nat :=
  parseDigits? (stripPlus s) bound

/-- Decimal digit character for a value below ten. -/
def digitCh (d : Nat) : Char :=
  match d with
  | 0 => '0' | 1 => '1' | 2 => '2' | 3 => '3' | 4 => '4'
  | 5 => '5' | 6 => '6' | 7 => '7' | 8 => '8' | _ => '9'

/-- Fuel-indexed helper computing the decimal digits of a positive number,
most significant first. The fuel dominates the number of digits. -/
def natCharsAux : Nat → Nat → Str
  | 0, _ => []
  | fuel + 1, n =>
    if n = 0 then [] else natCharsAux fuel (n / 10) ++ [digitCh (n % 10)]

/-- Decimal rendering of a natural number, as Rust Display prints a u64 or
u32 (no sign, no padding). -/
def natChars (n : Nat) : Str :=
  if n = 0 then ['0'] else natCharsAux n n

/-- Embedding of clean_title from src/utils.rs (character loop): an
underscore becomes a space, a backslash is skipped, a double quote becomes
backslash double-quote, any other character is kept. -/
def cleanChars : Str → Str
  | [] => []
  | c :: cs =>
    if c = '_' then ' ' :: cleanChars cs
    else if c = '\\' then cleanChars cs
    else if c = '"' then '\\' :: '"' :: cleanChars cs
    else c :: cleanChars cs

/-- clean_title from src/utils.rs. -/
def clean_title (title : Str) : Str := cleanChars title

/-- The Page struct from src/pages.rs. The field called namespace in the
source is renamed nspace because namespace is a Lean keyword. -/
structure Page where
  pageid : Nat
  nspace : Nat
  title : Str
deriving DecidableEq, Repr

/-- PageError from src/pages.rs. The SQL variant carries the offending
values (the source formats them into a string); the RDF variant carries a
debug rendering of the triples in the source, omitted here. -/
inductive PageError where
  | SQL (values : List Str)
  | RDF
deriving DecidableEq, Repr

/-- Page::from_sql from src/pages.rs: expects exactly 13 fields, parses
field 0 as u64 and field 1 as u32, passes field 2 through clean_title. -/
def Page.from_sql (values : List Str) : Except PageError Page :=
  match values with
  | v0 :: v1 :: v2 :: rest =>
    if rest.length ≠ 10 then .error (.SQL values)
    else
      match parseNat? v0 u64max with
      | none => .error (.SQL values)
      | some id =>
        match parseNat? v1 u32max with
        | none => .error (.SQL values)
        | some ns => .ok ⟨id, ns, clean_title v2⟩
  | _ => .error (.SQL values)

/-- One output line of Page::to_rdf: subject id, predicate and object in
the shape open-angle id close-angle space open-angle predicate close-angle
space quote object quote space period. -/
def rdfLine (id : Nat) (pred : Str) (obj : Str) : Str :=
  '<' :: natChars id ++ ("> <".data) ++ pred ++ ("> \"".data) ++ obj ++ ['"', ' ', '.']

/-- Page::to_rdf from src/pages.rs: the namespace triple line, a newline,
then the title triple line, exactly as the format string in the source. -/
def Page.to_rdf (p : Page) : Str :=
  rdfLine p.pageid ("namespace".data) (natChars p.nspace)
    ++ '\n' :: rdfLine p.pageid ("title".data) p.title

/-- Whitespace as trimmed by Rust str::trim. Rust trims the Unicode
White_Space set; the inputs of interest only carry these ASCII ones. -/
def isWs (c : Char) : Bool :=
  c = ' ' || c = '\t' || c = '\n' || c = '\r'

/-- Rust str::trim: drop whitespace at both ends. -/
def trimL (l : Str) : Str :=
  ((l.dropWhile isWs).reverse.dropWhile isWs).reverse

/-- Comment test used by from_rdf and pages_from_rdf: the line starts with
a hash character. -/
def isComment (l : Str) : Bool :=
  match l with
  | c :: _ => c = '#'
  | [] => false

/-- The per-line shape test from Page::from_rdf: the (trimmed) line must
start with an opening angle bracket and end with a period. -/
def shapeOk (l : Str) : Bool :=
  (l.head? == some '<') && (l.reverse.head? == some '.')

/-- The usable lines of Page::from_rdf: non-empty, non-comment lines,
each trimmed. The filter runs before the trim, as in the source. -/
def usableTrimmed (triples : List Str) : List Str :=
  (triples.filter fun l => !l.isEmpty && !isComment l).map trimL

/-- Strip an expected prefix, returning the rest of the string. -/
def stripPre : Str → Str → Option Str
  | [], r => some r
  | _ :: _, [] => none
  | p :: ps, c :: cs => if p = c then stripPre ps cs else none

/-- Condition at index i for the greedy capture of the regex tail
quote-space-dot: position i holds a double quote, position i+1 a space,
position i+2 any character other than a newline (the unescaped final dot
of the regex matches any such character, and the regex is not anchored at
the end), and everything before i is newline-free (the star steps over no
newline). -/
def objCond (r : Str) (i : Nat) : Bool :=
  (r.get? i == some '"') && (r.get? (i + 1) == some ' ') &&
    (match r.get? (i + 2) with
     | some c => c ≠ '\n'
     | none => false) &&
    (r.take i).all (fun c => c ≠ '\n')

/-- Greedy object capture: the star in the regex is greedy, so the capture
ends at the last index satisfying objCond. -/
def objSplit (r : Str) : Option Str :=
  ((List.range r.length).reverse.find? (objCond r)).map (fun i => r.take i)

/-- Attempt to read one predicate alternative followed by the close-angle,
space, opening quote, and then the greedy object capture. -/
def tryPred (pred : Str) (r : Str) : Option Str :=
  match stripPre pred r with
  | none => none
  | some r2 =>
    match stripPre ("> \"".data) r2 with
    | none => none
    | some r3 => objSplit r3

/-- Predicate alternation of the triple regex: try the namespace word,
then the title word, pairing the captured object with the subject digits
already read. -/
def matchPred (ds r2 : Str) : Option (Str × Str × Str) :=
  match tryPred ("namespace".data) r2 with
  | some obj => some (ds, "namespace".data, obj)
  | none =>
    match tryPred ("title".data) r2 with
    | some obj => some (ds, "title".data, obj)
    | none => none

/-- Part of the triple regex after the leading open angle bracket: one or
more digits, the close-angle space open-angle separator, then the
predicate alternation. -/
def matchAfterLt (rest : Str) : Option (Str × Str × Str) :=
  if rest.takeWhile Char.isDigit = [] then none
  else
    match stripPre ("> <".data) (rest.dropWhile Char.isDigit) with
    | none => none
    | some r2 => matchPred (rest.takeWhile Char.isDigit) r2

/-- match_triple from src/pages.rs: the anchored regex
open-angle digits close-angle space open-angle (namespace or title)
close-angle space quote greedy-capture quote space any-char; returns the
subject digits, the predicate word and the captured object. -/
def match_triple (l : Str) : Option (Str × Str × Str) :=
  match l with
  | c :: rest => if c = '<' then matchAfterLt rest else none
  | [] => none

/-- Page::from_rdf from src/pages.rs. The input lines are filtered
(dropping empty lines and comments) and trimmed; every kept line must pass
the shape test (the iterator-collect in the source fails on any bad line,
wherever it occurs); at least two lines must remain; the first two must
match the triple regex, share the same subject, the subject must parse as
u64 and the namespace-position object as u32. Whichever of the two lines
carries the title predicate supplies the title verbatim: the source
compares the first predicate against the word namespace and takes the
namespace value from that line and the title from the other one.
This definition is the part of Page::from_rdf working on the first two
usable lines. -/
def fromTwo (t0 t1 : Str) : Except PageError Page :=
  match match_triple t0, match_triple t1 with
  | some (i0, p0, v0), some (i1, _, v1) =>
    if i0 = i1 then
      match parseNat? i0 u64max with
      | none => .error .RDF
      | some id =>
        if p0 = "namespace".data then
          match parseNat? v0 u32max with
          | none => .error .RDF
          | some ns => .ok ⟨id, ns, v1⟩
        else
          match parseNat? v1 u32max with
          | none => .error .RDF
          | some ns => .ok ⟨id, ns, v0⟩
    else .error .RDF
  | _, _ => .error .RDF

/-- Page::from_rdf from src/pages.rs: filter and trim the lines, shape
check every kept line (the collect over per-line results in the source),
require at least two lines and decode the first two with fromTwo. -/
def Page.from_rdf (triples : List Str) : Except PageError Page :=
  if (usableTrimmed triples).all shapeOk then
    match usableTrimmed triples with
    | t0 :: t1 :: _ => fromTwo t0 t1
    | _ => .error .RDF
  else .error .RDF

/-- Split a character stream at newline characters, the inverse of the
newline join in Page::to_rdf and the line structure pages_from_rdf reads. -/
def splitNl : Str → List Str
  | [] => [[]]
  | c :: rest =>
    if c = '\n' then [] :: splitNl rest
    else
      match splitNl rest with
      | [] => [[c]]
      | r :: rs => (c :: r) :: rs

/-- The HashMap of pages_from_rdf, keyed by (title, namespace). Insertion
replaces an existing binding, so lookup takes the most recent one. -/
abbrev PageMap := List ((Str × Nat) × Page)

/-- HashMap::insert: the new binding shadows any previous one. -/
def mapInsert (m : PageMap) (k : Str × Nat) (v : Page) : PageMap :=
  (k, v) :: m

/-- HashMap::get: the most recent binding for the key, if any. -/
def mapFind (m : PageMap) (k : Str × Nat) : Option Page :=
  (m.find? fun e => e.1 = k).map (fun e => e.2)

/-- Loop body of pages_from_rdf from src/pages.rs: skip empty and comment
lines; once two lines are pending, decode them into a Page, insert it
under (title, namespace) and start the pending buffer again with the
current line; otherwise append the current line to the pending buffer.
Whatever is pending when the input ends is returned without being decoded,
exactly as the source loop does. -/
def pagesFromRdfGo : List Str → List Str → PageMap → Except PageError PageMap
  | [], _, pages => .ok pages
  | l :: rest, triples, pages =>
    if l.isEmpty || isComment l then pagesFromRdfGo rest triples pages
    else if triples.length = 2 then
      match Page.from_rdf triples with
      | .error e => .error e
      | .ok page =>
        pagesFromRdfGo rest [l] (mapInsert pages (page.title, page.nspace) page)
    else pagesFromRdfGo rest (triples ++ [l]) pages

/-- pages_from_rdf from src/pages.rs, reading an already-split sequence of
lines (the BufRead line iterator, without I/O failures). -/
def pages_from_rdf (lines : List Str) : Except PageError PageMap :=
  pagesFromRdfGo lines [] []

/-- The Link struct from src/links.rs. -/
structure Link where
  from_id : Nat
  to_id : Nat
deriving DecidableEq, Repr

/-- LinkError from src/links.rs. The SQL variant carries the offending
values; PageNotFound carries the title text and namespace the source puts
in the error. -/
inductive LinkError where
  | SQL (values : List Str)
  | PageNotFound (title : Str) (nspace : Nat)
deriving DecidableEq, Repr

/-- Link::from_sql from src/links.rs: exactly 4 fields; field 0 parses as
u64 (the from id); if that id is not in the known-id set, field 3 (the
from namespace) is parsed as u32 and a PageNotFound carrying a message
about the from pageid is returned; otherwise field 1 parses as u32 (the
destination namespace), field 2 is normalized with clean_title and looked
up in the page map; a missing destination is PageNotFound, a hit produces
the Link with the destination pageid. -/
def Link.from_sql (pages : PageMap) (pageids : List Nat) (values : List Str) :
    Except LinkError Link :=
  match values with
  | [v0, v1, v2, v3] =>
    match parseNat? v0 u64max with
    | none => .error (.SQL values)
    | some from_id =>
      if !(pageids.contains from_id) then
        match parseNat? v3 u32max with
        | none => .error (.SQL values)
        | some from_ns =>
          .error (.PageNotFound ("from pageid: ".data ++ natChars from_id) from_ns)
      else
        match parseNat? v1 u32max with
        | none => .error (.SQL values)
        | some to_ns =>
          match mapFind pages (clean_title v2, to_ns) with
          | none => .error (.PageNotFound (clean_title v2) to_ns)
          | some page => .ok ⟨from_id, page.pageid⟩
  | _ => .error (.SQL values)

/-- Link::to_rdf from src/links.rs. -/
def Link.to_rdf (l : Link) : Str :=
  '<' :: natChars l.from_id ++ ("> <linksto> <".data) ++ natChars l.to_id ++ ['>', ' ', '.']

/-- States of the InsertParser from src/sql.rs. -/
inductive LexState where
  | outValue
  | inValue
  | inField
  | inStrField
deriving DecidableEq, Repr

/-- One row of fields produced by the lexer. -/
abbrev Row := List Str

/-- The InsertParser iteration from src/sql.rs, with all next() calls
fused into one pass. Arguments: the remaining characters, the state, the
one-shot escaped flag of the quoted-field state, the current field, the
current row, and the rows produced so far. The two source branches that
reprocess the current character without advancing (entering a plain field,
and closing a plain field) are fused with the follow-up step, so every
step here consumes exactly one character. The second component of the
result is true when the source would index past the end of the line (the
loop reads data[curr_pos] unconditionally, which panics in Rust). -/
def lexGo : Str → LexState → Bool → Str → Row → List Row → List Row × Bool
  | [], _, _, _, _, acc => (acc, true)
  | c :: rest, .outValue, _, _, _, acc =>
    if c = '(' then lexGo rest .inValue false [] [] acc
    else if c = ';' then (acc, false)
    else lexGo rest .outValue false [] [] acc
  | c :: rest, .inValue, _, _, value, acc =>
    if c = ';' then (acc, false)
    else if c = ')' then lexGo rest .outValue false [] [] (acc ++ [value])
    else if c = ',' then lexGo rest .inValue false [] value acc
    else if c = sqc then lexGo rest .inStrField false [] value acc
    else lexGo rest .inField false [c] value acc
  | c :: rest, .inField, _, field, value, acc =>
    if c = ',' then lexGo rest .inValue false [] (value ++ [field]) acc
    else if c = ')' then lexGo rest .outValue false [] [] (acc ++ [value ++ [field]])
    else lexGo rest .inField false (field ++ [c]) value acc
  | c :: rest, .inStrField, escaped, field, value, acc =>
    if escaped then lexGo rest .inStrField false (field ++ [c]) value acc
    else if c = '\\' then lexGo rest .inStrField true (field ++ [c]) value acc
    else if c = sqc then lexGo rest .inValue false [] (value ++ [field]) acc
    else lexGo rest .inStrField false (field ++ [c]) value acc

/-- Iterating InsertParser::from_line(line) to exhaustion: the rows it
yields, and whether the iteration ends in the out-of-bounds read instead
of returning None at a statement terminator. -/
def lexLine (line : Str) : List Row × Bool :=
  lexGo line .outValue false [] [] []

/-- Errors surfaced by the link-conversion run of src/main.rs: a raw
line-read failure in the producer loop, a LinkError from the parsing
worker, or a thread panic (the lexer reading past the end of a line). -/
inductive RunError where
  | io
  | link (e : LinkError)
  | panic
deriving DecidableEq, Repr

/-- Row loop of the parsing worker in links_to_rdf (src/main.rs lines
200-211): each row is decoded with Link::from_sql; a PageNotFound error is
skipped and the loop continues with the next row; an SQL error is returned
and aborts the worker; a decoded link is serialized and emitted. -/
def workerRows (pages : PageMap) (pageids : List Nat) :
    List Row → Except LinkError (List Str)
  | [] => .ok []
  | row :: rest =>
    match Link.from_sql pages pageids row with
    | .ok link =>
      match workerRows pages pageids rest with
      | .error e => .error e
      | .ok ts => .ok (Link.to_rdf link :: ts)
    | .error (.PageNotFound _ _) => workerRows pages pageids rest
    | .error (.SQL v) => .error (.SQL v)

/-- Does the line start with the INSERT INTO prefix the producer loop
requires? -/
def isInsertLine (l : Str) : Bool :=
  (stripPre ("INSERT INTO".data) l).isSome

/-- Sequential model of links_to_rdf from src/main.rs: the producer read
loop fused with the parsing worker. Each element of the input is one
line-read result, none standing for an I/O failure. A failed read is
skipped when ignore_errors is set and aborts the run otherwise; lines not
starting with INSERT INTO are skipped; matching lines are lexed and their
rows decoded as in workerRows, aborting on an SQL error; when the lexer
runs off the end of the line the worker thread panics, after the rows
already yielded have been processed. The queues between the three threads
only buffer data and the single decode thread preserves row order, so this
sequential composition reproduces which rows are dropped, which triples
are produced and which decode or read error aborts the run. -/
def linksPipeline (ignore : Bool) (pages : PageMap) (pageids : List Nat) :
    List (Option Str) → Except RunError (List Str)
  | [] => .ok []
  | none :: rest =>
    if ignore then linksPipeline ignore pages pageids rest else .error .io
  | some l :: rest =>
    if !(isInsertLine l) then linksPipeline ignore pages pageids rest
    else
      match workerRows pages pageids (lexLine l).1 with
      | .error e => .error (.link e)
      | .ok ts =>
        if (lexLine l).2 then .error .panic
        else
          match linksPipeline ignore pages pageids rest with
          | .error e => .error e
          | .ok ts2 => .ok (ts ++ ts2)

/-- Modelled from the claim wording for the title normalization: per
character, an underscore maps to a space, a backslash to nothing, a double
quote to backslash double-quote, anything else to itself. Used to compare
clean_title against the claim. -/
def cleanSpecChar (c : Char) : List Char :=
  if c = '_' then [' ']
  else if c = '\\' then []
  else if c = '"' then ['\\', '"']
  else [c]

/-- Failure condition for the two decoded lines, stated declaratively:
the two lines must both match the triple regex, share a subject, the
subject must parse as u64 and the namespace-position value as u32. -/
def fromTwoFails : Option Str → Option Str → Bool
  | some t0, some t1 =>
    match match_triple t0, match_triple t1 with
    | some (i0, p0, v0), some (i1, _, v1) =>
      decide (i0 ≠ i1) || (parseNat? i0 u64max).isNone ||
        (if p0 = "namespace".data then (parseNat? v0 u32max).isNone
         else (parseNat? v1 u32max).isNone)
    | _, _ => true
  | _, _ => true

/-- Declarative statement of when Page::from_rdf fails (the amended C8
claim): some usable line fails the shape test, fewer than two usable
lines remain, or the first two usable lines fail the two-line decode. -/
def fromRdfFails (triples : List Str) : Bool :=
  !((usableTrimmed triples).all shapeOk)
  || decide ((usableTrimmed triples).length < 2)
  || fromTwoFails ((usableTrimmed triples).get? 0) ((usableTrimmed triples).get? 1)

/-! Lemmas about decimal rendering and parsing. -/

theorem charsVal_append_digit (xs : Str) (c : Char) :
    charsVal (xs ++ [c]) = charsVal xs * 10 + dval c := by
  simp [charsVal, List.foldl_append]

theorem natCharsAux_zero (f : Nat) : natCharsAux f 0 = [] := by
  cases f <;> simp [natCharsAux]

theorem dval_digitCh : ∀ d, d < 10 → dval (digitCh d) = d := by decide

theorem digitCh_isDigit : ∀ d, d < 10 → (digitCh d).isDigit = true := by decide

theorem natCharsAux_spec :
    ∀ f n, 0 < n → n ≤ f →
      (natCharsAux f n).all Char.isDigit = true ∧
        charsVal (natCharsAux f n) = n ∧ natCharsAux f n ≠ [] := by
  intro f
  induction f with
  | zero => intro n h1 h2; omega
  | succ g ih =>
    intro n h1 h2
    have hne : ¬ n = 0 := by omega
    rw [natCharsAux, if_neg hne]
    have hmod : n % 10 < 10 := Nat.mod_lt _ (by omega)
    by_cases hlt : n < 10
    · have hdiv : n / 10 = 0 := Nat.div_eq_of_lt hlt
      have hmod2 : n % 10 = n := Nat.mod_eq_of_lt hlt
      rw [hdiv, natCharsAux_zero]
      refine ⟨by simp [digitCh_isDigit _ hmod], ?_, by simp⟩
      simp [charsVal, hmod2, dval_digitCh n hlt]
    · have hdpos : 0 < n / 10 := Nat.div_pos (by omega) (by omega)
      have hdle : n / 10 ≤ g := by
        have := Nat.div_lt_self h1 (by omega : 1 < 10)
        omega
      obtain ⟨ha, hv, _⟩ := ih (n / 10) hdpos hdle
      refine ⟨?_, ?_, by simp⟩
      · simp [List.all_append, ha, digitCh_isDigit _ hmod]
      · rw [charsVal_append_digit, hv, dval_digitCh _ hmod]
        omega

theorem natChars_all_digit (n : Nat) : (natChars n).all Char.isDigit = true := by
  by_cases h : n = 0
  · subst h; decide
  · rw [natChars, if_neg h]
    exact (natCharsAux_spec n n (by omega) le_rfl).1

theorem natChars_ne_nil (n : Nat) : natChars n ≠ [] := by
  by_cases h : n = 0
  · subst h; decide
  · rw [natChars, if_neg h]
    exact (natCharsAux_spec n n (by omega) le_rfl).2.2

theorem charsVal_natChars (n : Nat) : charsVal (natChars n) = n := by
  by_cases h : n = 0
  · subst h; decide
  · rw [natChars, if_neg h]
    exact (natCharsAux_spec n n (by omega) le_rfl).2.1

/-- A digit character is none of the structural characters that appear in
the triple grammar or terminate lines. -/
theorem isDigit_ne {c x : Char} (h : c.isDigit = true) (hx : x.isDigit = false) :
    c ≠ x := by
  intro e; rw [e, hx] at h; cases h

theorem parseNat?_natChars {n bound : Nat} (h : n ≤ bound) :
    parseNat? (natChars n) bound = some n := by
  have hd := natChars_all_digit n
  have hne := natChars_ne_nil n
  have hv := charsVal_natChars n
  rcases hh : natChars n with _ | ⟨c, rest⟩
  · exact absurd hh hne
  · rw [hh] at hd hv
    have hc : c.isDigit = true := by
      have := List.all_eq_true.mp hd
      exact this c (by simp)
    have hplus : ¬ c = '+' := isDigit_ne hc (by decide)
    simp only [parseNat?, stripPlus, if_neg hplus, parseDigits?]
    rw [if_neg (by simp), if_pos hd, hv, if_pos h]

theorem parseNat?_le {s : Str} {bound v : Nat} (h : parseNat? s bound = some v) :
    v ≤ bound := by
  unfold parseNat? parseDigits? at h
  split at h
  · cases h
  · split at h
    · split at h
      · injection h with h2; omega
      · cases h
    · cases h

/-! Generic list lemmas used to run the embedded functions on the
structured strings that the serializer produces. -/

theorem takeWhile_all_append {p : Char → Bool} {xs : Str} (y : Char) (t : Str)
    (hxs : xs.all p = true) (hy : p y = false) :
    (xs ++ y :: t).takeWhile p = xs := by
  induction xs with
  | nil => simp [List.takeWhile, hy]
  | cons c cs ih =>
    simp only [List.all_cons, Bool.and_eq_true] at hxs
    simp [List.takeWhile, hxs.1, ih hxs.2]

theorem dropWhile_all_append {p : Char → Bool} {xs : Str} (y : Char) (t : Str)
    (hxs : xs.all p = true) (hy : p y = false) :
    (xs ++ y :: t).dropWhile p = y :: t := by
  induction xs with
  | nil => simp [List.dropWhile, hy]
  | cons c cs ih =>
    simp only [List.all_cons, Bool.and_eq_true] at hxs
    simp [List.dropWhile, hxs.1, ih hxs.2]

theorem stripPre_append : ∀ (xs r : Str), stripPre xs (xs ++ r) = some r := by
  intro xs
  induction xs with
  | nil => intro r; rfl
  | cons c cs ih => intro r; simp [stripPre, ih r]

theorem get?_append_len : ∀ (xs ys : Str) (n : Nat),
    (xs ++ ys).get? (xs.length + n) = ys.get? n := by
  intro xs
  induction xs with
  | nil => intro ys n; simp
  | cons c cs ih =>
    intro ys n
    simpa [List.length, Nat.succ_add] using ih ys n

theorem take_len_append : ∀ (xs ys : Str), (xs ++ ys).take xs.length = xs := by
  intro xs
  induction xs with
  | nil => intro ys; rfl
  | cons c cs ih => intro ys; simp [List.take, ih ys]

theorem find_rev_range {p : Nat → Bool} :
    ∀ n k, k < n → p k = true → (∀ j, k < j → p j = false) →
      ((List.range n).reverse.find? p) = some k := by
  intro n
  induction n with
  | zero => intro k h; omega
  | succ m ih =>
    intro k hk hpk hup
    rw [List.range_succ, List.reverse_append]
    simp only [List.reverse_cons, List.reverse_nil, List.nil_append, List.cons_append]
    by_cases he : m = k
    · subst he
      rw [List.find?_cons_of_pos _ hpk]
    · have hm : p m = false := hup m (by omega)
      rw [List.find?_cons_of_neg _ (by rw [hm]; simp)]
      exact ih k (by omega) hpk hup

/-- The greedy capture of the object: on a string of the exact shape the
serializer emits (object, quote, space, one final character) the last
index satisfying the capture condition is the object length, so the
capture is exactly the object. -/
theorem objSplit_exact {obj : Str} {c : Char}
    (hobj : ∀ x ∈ obj, x ≠ '\n') (hc : c ≠ '\n') :
    objSplit (obj ++ ['"', ' ', c]) = some obj := by
  have hlen : (obj ++ ['"', ' ', c]).length = obj.length + 3 := by simp
  have g0 : (obj ++ ['"', ' ', c]).get? obj.length = some '"' := by
    simpa using get?_append_len obj ['"', ' ', c] 0
  have g1 : (obj ++ ['"', ' ', c]).get? (obj.length + 1) = some ' ' := by
    simpa using get?_append_len obj ['"', ' ', c] 1
  have g2 : (obj ++ ['"', ' ', c]).get? (obj.length + 2) = some c := by
    simpa using get?_append_len obj ['"', ' ', c] 2
  have hall : obj.all (fun x => decide (x ≠ '\n')) = true := by
    rw [List.all_eq_true]
    intro x hx
    simpa using hobj x hx
  have hcond : objCond (obj ++ ['"', ' ', c]) obj.length = true := by
    unfold objCond
    rw [g0, g1, g2, take_len_append]
    simp [hc]
    intro x hx
    exact hobj x hx
  have hup : ∀ j, obj.length < j → objCond (obj ++ ['"', ' ', c]) j = false := by
    intro j hj
    rcases Nat.lt_or_ge j (obj.length + 3) with hj3 | hj3
    · have : j = obj.length + 1 ∨ j = obj.length + 2 := by omega
      rcases this with e | e <;> subst e
      · unfold objCond
        rw [g1]
        simp
      · have hnone : (obj ++ ['"', ' ', c]).get? (obj.length + 2 + 1) = none := by
          rw [List.get?_eq_none]
          omega
        unfold objCond
        rw [g2, hnone]
        simp
    · have hnone : (obj ++ ['"', ' ', c]).get? j = none := by
        rw [List.get?_eq_none]
        omega
      unfold objCond
      rw [hnone]
      simp
  unfold objSplit
  rw [find_rev_range _ obj.length (by omega) hcond hup]
  simp [take_len_append]

/-- Reading a predicate word followed by the close-angle space quote
separator and a serialized object captures exactly the object. -/
theorem tryPred_build (pred obj : Str) (h3 : ∀ x ∈ obj, x ≠ '\n') :
    tryPred pred (pred ++ ('>' :: ' ' :: '"' :: (obj ++ ['"', ' ', '.']))) = some obj := by
  have hs2 : stripPre ("> \"".data) ('>' :: ' ' :: '"' :: (obj ++ ['"', ' ', '.']))
      = some (obj ++ ['"', ' ', '.']) := stripPre_append ['>', ' ', '"'] (obj ++ ['"', ' ', '.'])
  simp [tryPred, stripPre_append, hs2,
    objSplit_exact h3 (show ('.' : Char) ≠ '\n' from by decide)]

/-- The predicate alternation on a namespace-predicate tail. -/
theorem matchPred_ns {ds r2 obj : Str}
    (h : tryPred ("namespace".data) r2 = some obj) :
    matchPred ds r2 = some (ds, "namespace".data, obj) := by
  unfold matchPred
  rw [h]

/-- The predicate alternation on a title-predicate tail. -/
theorem matchPred_title {ds r2 obj : Str}
    (h0 : tryPred ("namespace".data) r2 = none)
    (h : tryPred ("title".data) r2 = some obj) :
    matchPred ds r2 = some (ds, "title".data, obj) := by
  unfold matchPred
  rw [h0, h]

/-- Running the triple regex on a string of the exact serialized shape
captures the subject digits, the predicate and the object. -/
theorem match_triple_build {ds pred obj : Str}
    (h1 : ds ≠ []) (h2 : ds.all Char.isDigit = true)
    (hp : pred = "namespace".data ∨ pred = "title".data)
    (h3 : ∀ x ∈ obj, x ≠ '\n') :
    match_triple ('<' :: ds ++ ("> <".data) ++ pred ++ ("> \"".data) ++ obj ++ ['"', ' ', '.'])
      = some (ds, pred, obj) := by
  have hgt : Char.isDigit '>' = false := by decide
  have hA : ("> <".data : Str) = ['>', ' ', '<'] := rfl
  have hB : ("> \"".data : Str) = ['>', ' ', '"'] := rfl
  simp only [hA, hB, List.cons_append, List.append_assoc, List.nil_append]
  simp only [match_triple, if_true]
  unfold matchAfterLt
  rw [takeWhile_all_append '>' _ h2 hgt, dropWhile_all_append '>' _ h2 hgt, if_neg h1]
  rw [show stripPre ("> <".data)
        ('>' :: ' ' :: '<' :: (pred ++ '>' :: ' ' :: '"' :: (obj ++ ['"', ' ', '.'])))
      = some (pred ++ '>' :: ' ' :: '"' :: (obj ++ ['"', ' ', '.']))
      from stripPre_append ['>', ' ', '<'] _]
  show matchPred ds (pred ++ '>' :: ' ' :: '"' :: (obj ++ ['"', ' ', '.'])) = some (ds, pred, obj)
  rcases hp with e | e <;> subst e
  · exact matchPred_ns (tryPred_build _ obj h3)
  · exact matchPred_title rfl (tryPred_build _ obj h3)

/-! Lemmas about trimming, the line filter and newline splitting, used to
run from_rdf on the serializer output. -/

theorem trimL_fixed {c d : Char} (xs : Str) (hc : isWs c = false) (hd : isWs d = false) :
    trimL ((c :: xs) ++ [d]) = (c :: xs) ++ [d] := by
  unfold trimL
  have h1 : ((c :: xs) ++ [d]).dropWhile isWs = (c :: xs) ++ [d] := by
    rw [List.cons_append, List.dropWhile_cons]
    simp [hc]
  rw [h1, List.reverse_append]
  have h2 : (([d] : Str).reverse ++ (c :: xs).reverse).dropWhile isWs
      = ([d] : Str).reverse ++ (c :: xs).reverse := by
    simp only [List.reverse_singleton, List.singleton_append, List.dropWhile_cons]
    simp [hd]
  rw [h2, ← List.reverse_append, List.reverse_reverse]

theorem no_nl_append {a b : Str} (ha : ∀ c ∈ a, c ≠ '\n') (hb : ∀ c ∈ b, c ≠ '\n') :
    ∀ c ∈ a ++ b, c ≠ '\n' := by
  intro c hc
  rcases List.mem_append.mp hc with h | h
  · exact ha c h
  · exact hb c h

theorem no_nl_cons {a : Char} {b : Str} (ha : a ≠ '\n') (hb : ∀ c ∈ b, c ≠ '\n') :
    ∀ c ∈ a :: b, c ≠ '\n' := by
  intro c hc
  rcases List.mem_cons.mp hc with h | h
  · rw [h]; exact ha
  · exact hb c h

theorem natChars_no_nl (n : Nat) : ∀ c ∈ natChars n, c ≠ '\n' := by
  intro c hc
  have hd := List.all_eq_true.mp (natChars_all_digit n) c hc
  exact isDigit_ne hd (by decide)

theorem rdfLine_no_nl {i : Nat} {pred obj : Str}
    (hpred : ∀ c ∈ pred, c ≠ '\n') (hobj : ∀ c ∈ obj, c ≠ '\n') :
    ∀ c ∈ rdfLine i pred obj, c ≠ '\n' := by
  unfold rdfLine
  refine no_nl_append (no_nl_append (no_nl_append (no_nl_append (no_nl_append
    (no_nl_cons (by decide) (natChars_no_nl i)) (by decide)) hpred) (by decide)) hobj)
    (by decide)

theorem splitNl_no_nl {l : Str} (h : ∀ c ∈ l, c ≠ '\n') : splitNl l = [l] := by
  induction l with
  | nil => rfl
  | cons c rest ih =>
    have hc : ¬ c = '\n' := h c (by simp)
    have hr := ih (fun x hx => h x (by simp [hx]))
    simp [splitNl, hc, hr]

theorem splitNl_append {l1 : Str} (l2 : Str) (h : ∀ c ∈ l1, c ≠ '\n') :
    splitNl (l1 ++ '\n' :: l2) = l1 :: splitNl l2 := by
  induction l1 with
  | nil => simp [splitNl]
  | cons c rest ih =>
    have hc : ¬ c = '\n' := h c (by simp)
    have hr := ih (fun x hx => h x (by simp [hx]))
    simp [splitNl, hc, hr]

/-- A serialized triple line is an open angle bracket, a middle part and a
final period, the shape on which trimming and the shape test are easy to
evaluate. -/
theorem rdfLine_shape (i : Nat) (pred obj : Str) :
    rdfLine i pred obj
      = ('<' :: (natChars i ++ ("> <".data) ++ pred ++ ("> \"".data) ++ obj ++ ['"', ' '])) ++ ['.'] := by
  simp [rdfLine, List.append_assoc, List.cons_append]

theorem usableTrimmed_two {l1 l2 : Str} (h1 : l1.isEmpty = false) (h2 : isComment l1 = false)
    (h3 : l2.isEmpty = false) (h4 : isComment l2 = false)
    (h5 : trimL l1 = l1) (h6 : trimL l2 = l2) :
    usableTrimmed [l1, l2] = [l1, l2] := by
  simp [usableTrimmed, h1, h2, h3, h4, h5, h6]

theorem shapeOk_shape (c d : Char) (xs : Str) :
    shapeOk ((c :: xs) ++ [d]) = (c == '<' && d == '.') := by
  unfold shapeOk
  have h1 : ((c :: xs) ++ [d]).head? = some c := by simp
  have h2 : ((c :: xs) ++ [d]).reverse.head? = some d := by
    rw [List.reverse_append]
    simp
  rw [h1, h2]
  rfl

/-- Serializing a page and reading the two resulting lines back
reconstructs the page exactly, whenever its numeric fields are in range
and its title spans a single line. -/
theorem from_rdf_to_rdf (p : Page) (hb1 : p.pageid ≤ u64max) (hb2 : p.nspace ≤ u32max)
    (hti : ∀ c ∈ p.title, c ≠ '\n') :
    Page.from_rdf (splitNl (Page.to_rdf p)) = .ok p := by
  have hl1nl : ∀ c ∈ rdfLine p.pageid ("namespace".data) (natChars p.nspace), c ≠ '\n' :=
    rdfLine_no_nl (by decide) (natChars_no_nl _)
  have hl2nl : ∀ c ∈ rdfLine p.pageid ("title".data) p.title, c ≠ '\n' :=
    rdfLine_no_nl (by decide) hti
  unfold Page.to_rdf
  rw [splitNl_append _ hl1nl, splitNl_no_nl hl2nl]
  have hshape1 := rdfLine_shape p.pageid ("namespace".data) (natChars p.nspace)
  have hshape2 := rdfLine_shape p.pageid ("title".data) p.title
  have husable : usableTrimmed [rdfLine p.pageid ("namespace".data) (natChars p.nspace),
      rdfLine p.pageid ("title".data) p.title]
      = [rdfLine p.pageid ("namespace".data) (natChars p.nspace),
         rdfLine p.pageid ("title".data) p.title] := by
    rw [hshape1, hshape2]
    exact usableTrimmed_two (by simp) rfl (by simp) rfl
      (trimL_fixed _ (by decide) (by decide)) (trimL_fixed _ (by decide) (by decide))
  have hsh1 : shapeOk (rdfLine p.pageid ("namespace".data) (natChars p.nspace)) = true := by
    rw [hshape1, shapeOk_shape]
    decide
  have hsh2 : shapeOk (rdfLine p.pageid ("title".data) p.title) = true := by
    rw [hshape2, shapeOk_shape]
    decide
  have hm1 : match_triple (rdfLine p.pageid ("namespace".data) (natChars p.nspace))
      = some (natChars p.pageid, "namespace".data, natChars p.nspace) := by
    rw [rdfLine]
    exact match_triple_build (natChars_ne_nil _) (natChars_all_digit _) (Or.inl rfl)
      (natChars_no_nl _)
  have hm2 : match_triple (rdfLine p.pageid ("title".data) p.title)
      = some (natChars p.pageid, "title".data, p.title) := by
    rw [rdfLine]
    exact match_triple_build (natChars_ne_nil _) (natChars_all_digit _) (Or.inr rfl) hti
  unfold Page.from_rdf
  rw [husable]
  rw [if_pos (by simp [hsh1, hsh2])]
  show fromTwo (rdfLine p.pageid ("namespace".data) (natChars p.nspace))
    (rdfLine p.pageid ("title".data) p.title) = .ok p
  simp only [fromTwo, hm1, hm2, if_true, parseNat?_natChars hb1, parseNat?_natChars hb2]

/-- Title normalization maps a newline-free string to a newline-free
string: every produced character is a space, a backslash, a double quote
or a character of the input. -/
theorem cleanChars_no_nl {s : Str} (h : ∀ c ∈ s, c ≠ '\n') :
    ∀ c ∈ cleanChars s, c ≠ '\n' := by
  induction s with
  | nil => intro c hc; simp [cleanChars] at hc
  | cons a as ih =>
    have ha := h a (List.mem_cons_self a as)
    have hr := ih (fun x hx => h x (List.mem_cons_of_mem a hx))
    intro c hc
    simp only [cleanChars] at hc
    split_ifs at hc
    · rcases List.mem_cons.mp hc with e | e
      · rw [e]; decide
      · exact hr c e
    · exact hr c hc
    · rcases List.mem_cons.mp hc with e | e
      · rw [e]; decide
      · rcases List.mem_cons.mp e with e2 | e2
        · rw [e2]; decide
        · exact hr c e2
    · rcases List.mem_cons.mp hc with e | e
      · rw [e]; exact ha
      · exact hr c e

/-- C1: for every value row of exactly 13 string fields whose field 0
parses as an unsigned 64-bit integer and whose field 1 parses as an
unsigned 32-bit integer, decoding with Page::from_sql, serializing with
Page::to_rdf, splitting the result at the newline into its lines, and
reconstructing with Page::from_rdf yields Ok of a Page equal to the
original in pageid, namespace and title. The hypothesis that field 2 is
newline-free formalizes that a value row is lexed out of one text line of
the dump, so no field can contain a line break. -/
theorem C1_page_roundtrip (values : List Str) (p : Page)
    (h : Page.from_sql values = .ok p)
    (hnl : ∀ c ∈ values.getD 2 [], c ≠ '\n') :
    Page.from_rdf (splitNl (Page.to_rdf p)) = .ok p := by
  rcases values with _ | ⟨v0, values⟩
  · exact absurd h (by simp [Page.from_sql])
  rcases values with _ | ⟨v1, values⟩
  · exact absurd h (by simp [Page.from_sql])
  rcases values with _ | ⟨v2, rest⟩
  · exact absurd h (by simp [Page.from_sql])
  have hv2 : (v0 :: v1 :: v2 :: rest).getD 2 [] = v2 := rfl
  rw [hv2] at hnl
  simp only [Page.from_sql] at h
  by_cases hlen : rest.length ≠ 10
  · rw [if_pos hlen] at h; cases h
  rw [if_neg hlen] at h
  rcases h0 : parseNat? v0 u64max with _ | i
  · simp only [h0] at h; cases h
  simp only [h0] at h
  rcases h1 : parseNat? v1 u32max with _ | n
  · simp only [h1] at h; cases h
  simp only [h1] at h
  injection h with h2
  rw [← h2]
  exact from_rdf_to_rdf _ (parseNat?_le h0) (parseNat?_le h1) (cleanChars_no_nl hnl)

/-- Witness for C1 at the concrete page row (10, 0, Foo_Bar, ...). -/
theorem C1_page_roundtrip_witness :
    Page.from_rdf (splitNl (Page.to_rdf ⟨10, 0, "Foo Bar".data⟩)) = .ok ⟨10, 0, "Foo Bar".data⟩ :=
  C1_page_roundtrip
    ((["10", "0", "Foo_Bar", "a", "b", "c", "d", "e", "f", "g", "h", "i", "j"]).map String.data)
    ⟨10, 0, "Foo Bar".data⟩ (by rfl) (by decide)

/-- C2 (code bug): pages_from_rdf drops the final page of the stream. The
loop only decodes a pending pair of lines when a further usable line
arrives, so the last pair is still pending when the input ends and is
returned undecoded. On the serialization of one page the resulting map is
empty, and on the serialization of two pages only the first is present. -/
theorem C2_pages_from_rdf_drops_last :
    pages_from_rdf (splitNl (Page.to_rdf ⟨10, 0, "Foo Bar".data⟩)) = .ok []
    ∧ pages_from_rdf (splitNl
        (Page.to_rdf ⟨10, 0, "Foo Bar".data⟩ ++ '\n' :: Page.to_rdf ⟨20, 0, "Baz".data⟩))
      = .ok [(("Foo Bar".data, 0), ⟨10, 0, "Foo Bar".data⟩)] := by
  exact ⟨rfl, rfl⟩

/-- C3 (code bug): the lexer reads data[curr_pos] without a bounds check,
so on a line whose scan reaches the end without a terminating semicolon
(the empty line, or a truncated statement) it indexes past the end of the
line, which panics in Rust, instead of stopping to yield rows. The third
conjunct shows a properly terminated statement ends cleanly. -/
theorem C3_lexer_reads_past_end :
    lexLine ("INSERT INTO t VALUES (1)".data) = ([[['1']]], true)
    ∧ lexLine [] = ([], true)
    ∧ lexLine ("INSERT INTO t VALUES (1);".data) = ([[['1']]], false) := by
  exact ⟨by decide, by decide, by decide⟩

/-- Counterexample to C4 as stated: on the 4-field row (1, 0, T, x) with
an empty known-id set, from_id parses as u64 and to_namespace parses as
u32, yet Link::from_sql returns the fatal SQL error, not the recoverable
ReferenceNotFound: the unknown from_id path first parses field 3 as u32
and x fails that parse. -/
theorem C4_counterexample :
    Link.from_sql [] [] (["1", "0", "T", "x"].map String.data)
      = .error (.SQL (["1", "0", "T", "x"].map String.data))
    ∧ parseNat? ("1".data) u64max = some 1
    ∧ parseNat? ("0".data) u32max = some 0 := by
  exact ⟨rfl, by decide, by decide⟩

/-- C4 amended: for a 4-field row whose from_id parses as u64, whose
to_namespace parses as u32 and whose from-namespace field (field 3) also
parses as u32, Link::from_sql returns Ok exactly when from_id is a known
id and the lookup of the normalized title with to_namespace succeeds, with
to_id the resolved pageid; in every other such case it returns the
recoverable PageNotFound outcome. -/
theorem C4_link_resolution (pages : PageMap) (pageids : List Nat)
    (values : List Str) (v0 v1 v2 v3 : Str) (fid tns fns : Nat) (pg : Page)
    (hv : values = [v0, v1, v2, v3])
    (h0 : parseNat? v0 u64max = some fid)
    (h1 : parseNat? v1 u32max = some tns)
    (h3 : parseNat? v3 u32max = some fns) :
    (pageids.contains fid = true → mapFind pages (clean_title v2, tns) = some pg →
      Link.from_sql pages pageids values = .ok ⟨fid, pg.pageid⟩)
    ∧ (pageids.contains fid = false →
      Link.from_sql pages pageids values
        = .error (.PageNotFound ("from pageid: ".data ++ natChars fid) fns))
    ∧ (pageids.contains fid = true → mapFind pages (clean_title v2, tns) = none →
      Link.from_sql pages pageids values = .error (.PageNotFound (clean_title v2) tns)) := by
  subst hv
  refine ⟨?_, ?_, ?_⟩
  · intro hc hfind
    simp only [Link.from_sql, h0, h1, hc, hfind]
    simp
  · intro hc
    simp only [Link.from_sql, h0, h3, hc]
    simp
  · intro hc hfind
    simp only [Link.from_sql, h0, h1, hc, hfind]
    simp

/-- Witness for C4 at a concrete resolvable row and page index. -/
theorem C4_link_resolution_witness :
    Link.from_sql [(("Foo Bar".data, 0), ⟨20, 0, "Foo Bar".data⟩)] [10]
      (["10", "0", "Foo_Bar", "0"].map String.data) = .ok ⟨10, 20⟩ :=
  (C4_link_resolution [(("Foo Bar".data, 0), ⟨20, 0, "Foo Bar".data⟩)] [10]
    _ ("10".data) ("0".data) ("Foo_Bar".data) ("0".data) 10 0 0 ⟨20, 0, "Foo Bar".data⟩
    rfl rfl rfl rfl).1 rfl rfl

/-- C5: in the link decode stage a PageNotFound outcome drops only that
row and processing continues with the next row, while an SQL decode error
aborts the whole conversion; the ignore-errors flag never changes this,
since it is consulted only for raw line-read failures: when every read
succeeds the pipeline result does not depend on the flag at all, and a
decode SQL error aborts the run whichever value the flag has. -/
theorem C5_error_severity (pages : PageMap) (pageids : List Nat)
    (row : Row) (rest : List Row) (t : Str) (n : Nat) (v : List Str)
    (lines : List (Option Str)) :
    (Link.from_sql pages pageids row = .error (.PageNotFound t n) →
      workerRows pages pageids (row :: rest) = workerRows pages pageids rest)
    ∧ (Link.from_sql pages pageids row = .error (.SQL v) →
      workerRows pages pageids (row :: rest) = .error (.SQL v))
    ∧ ((∀ x ∈ lines, x ≠ none) →
      linksPipeline true pages pageids lines = linksPipeline false pages pageids lines)
    ∧ (∀ (ignore : Bool) (l : Str) (ls : List (Option Str)),
      isInsertLine l = true →
      workerRows pages pageids (lexLine l).1 = .error (.SQL v) →
      linksPipeline ignore pages pageids (some l :: ls) = .error (.link (.SQL v))) := by
  refine ⟨?_, ?_, ?_, ?_⟩
  · intro h
    simp only [workerRows, h]
  · intro h
    simp only [workerRows, h]
  · intro h
    induction lines with
    | nil => rfl
    | cons x ls ih =>
      have hx := h x (List.mem_cons_self x ls)
      have hrest : ∀ y ∈ ls, y ≠ none := fun y hy => h y (List.mem_cons_of_mem x hy)
      rcases x with _ | l
      · exact absurd rfl hx
      · simp only [linksPipeline]
        rw [ih hrest]
  · intro ignore l ls hins hw
    simp only [linksPipeline, hins, hw]
    simp

/-- Witness for C5: a dropped unresolvable row, an aborting malformed row,
flag-independence on an error-free read sequence, and a flag-independent
abort on a malformed statement line. -/
theorem C5_error_severity_witness :
    workerRows [] [5] [(["5", "0", "T", "0"].map String.data)] = workerRows [] [5] []
    ∧ workerRows [] [] [(["x", "0", "T", "0"].map String.data)]
        = .error (.SQL (["x", "0", "T", "0"].map String.data))
    ∧ linksPipeline true [] [] [some ("x".data)] = linksPipeline false [] [] [some ("x".data)]
    ∧ linksPipeline true [] [] [some ("INSERT INTO t VALUES (x,0,T,0);".data)]
        = .error (.link (.SQL (["x", "0", "T", "0"].map String.data))) := by
  refine ⟨?_, ?_, ?_, ?_⟩
  · exact (C5_error_severity [] [5] (["5", "0", "T", "0"].map String.data) [] ("T".data) 0
      [] []).1 rfl
  · exact (C5_error_severity [] [] (["x", "0", "T", "0"].map String.data) [] [] 0
      (["x", "0", "T", "0"].map String.data) []).2.1 rfl
  · exact (C5_error_severity [] [] [] [] [] 0 [] [some ("x".data)]).2.2.1 (by decide)
  · exact (C5_error_severity [] [] [] [] [] 0 (["x", "0", "T", "0"].map String.data)
      []).2.2.2 true ("INSERT INTO t VALUES (x,0,T,0);".data) [] rfl rfl

/-- Counterexample to C6 as stated: lexing the line with a quoted field
containing backslash quote yields a field value that still contains the
backslash and the quote, not a single literal quote: the lexer keeps both
the backslash and the escaped character. -/
theorem C6_counterexample :
    (lexLine (['(', sqc, 'a', '\\', sqc, 'b', sqc, ')', ';'])).1 = [[['a', '\\', sqc, 'b']]]
    ∧ ['a', '\\', sqc, 'b'] ≠ ['a', sqc, 'b'] := by
  exact ⟨by decide, by decide⟩

/-- C6 amended: inside a quoted field the lexer copies a backslash and the
character following it into the field verbatim, for every character
including the quote; the decoding described by the claim happens in title
normalization instead, where a backslash is dropped (so backslash quote
becomes a lone quote) and a single quote is kept unchanged. -/
theorem C6_escape_behavior :
    (∀ (c : Char) (rest field : Str) (value : Row) (acc : List Row),
      lexGo ('\\' :: c :: rest) .inStrField false field value acc
        = lexGo rest .inStrField false (field ++ ['\\', c]) value acc)
    ∧ (∀ cs : Str, cleanChars ('\\' :: cs) = cleanChars cs)
    ∧ (∀ cs : Str, cleanChars (sqc :: cs) = sqc :: cleanChars cs) := by
  refine ⟨?_, ?_, ?_⟩
  · intro c rest field value acc
    simp [lexGo, List.append_assoc]
  · intro cs
    simp [cleanChars]
  · intro cs
    simp only [cleanChars]
    rw [if_neg (by decide), if_neg (by decide), if_neg (by decide)]

/-- Counterexample to C7 as stated: on the 4-field row (2, 1, U, y) with
an empty known-id set, Link::from_sql returns the fatal SQL error although
from_id parses as u64 and to_namespace parses as u32: the failing parse is
of field 3, which the claim says cannot affect whether an SQL error is
returned. -/
theorem C7_counterexample :
    Link.from_sql [] [] (["2", "1", "U", "y"].map String.data)
      = .error (.SQL (["2", "1", "U", "y"].map String.data))
    ∧ parseNat? ("2".data) u64max = some 2
    ∧ parseNat? ("1".data) u32max = some 1 := by
  exact ⟨rfl, by decide, by decide⟩

/-- C7 amended: for a 4-field row, Link::from_sql fails with the SQL error
exactly when from_id fails to parse as u64, or from_id parses but is
absent from the known-id set and the from-namespace field (field 3) fails
to parse as u32, or from_id parses to a known id and the to_namespace
field fails to parse as u32. -/
theorem C7_link_schema_error (pages : PageMap) (pageids : List Nat)
    (values : List Str) (v0 v1 v2 v3 : Str) (hv : values = [v0, v1, v2, v3]) :
    Link.from_sql pages pageids values = .error (.SQL values)
    ↔ (parseNat? v0 u64max = none
       ∨ (∃ i, parseNat? v0 u64max = some i ∧ pageids.contains i = false
           ∧ parseNat? v3 u32max = none)
       ∨ (∃ i, parseNat? v0 u64max = some i ∧ pageids.contains i = true
           ∧ parseNat? v1 u32max = none)) := by
  subst hv
  rcases h0 : parseNat? v0 u64max with _ | fid
  · simp only [Link.from_sql, h0]
    simp
  · simp only [Link.from_sql, h0]
    rcases hc : pageids.contains fid with _ | _
    · rcases h3 : parseNat? v3 u32max with _ | fns
      · simp [hc, h3, h0]
        exact Or.inl (by simpa using hc)
      · simp [hc, h3, h0]
        intro hmem
        exact absurd hmem (by simpa using hc)
    · rcases h1 : parseNat? v1 u32max with _ | tns
      · simp [hc, h1, h0]
        exact Or.inr (by simpa using hc)
      · rcases hfind : mapFind pages (clean_title v2, tns) with _ | pg
        · simp [hc, h1, h0, hfind]
          intro hmem
          exact absurd (show fid ∈ pageids by simpa using hc) hmem
        · simp [hc, h1, h0, hfind]
          intro hmem
          exact absurd (show fid ∈ pageids by simpa using hc) hmem

/-- Witness for C7 at a concrete row failing the from_id parse. -/
theorem C7_link_schema_error_witness :
    Link.from_sql [] [] (["x", "0", "T", "0"].map String.data)
      = .error (.SQL (["x", "0", "T", "0"].map String.data)) :=
  (C7_link_schema_error [] [] _ ("x".data) ("0".data) ("T".data) ("0".data) rfl).mpr
    (Or.inl rfl)

/-- The two-line decode fails exactly when the declarative two-line
failure condition holds: a regex mismatch on either line, differing
subjects, a u64 overflow of the subject, or a failing u32 parse of the
namespace-position value. -/
theorem fromTwo_error_iff (t0 t1 : Str) :
    fromTwo t0 t1 = .error .RDF ↔ fromTwoFails (some t0) (some t1) = true := by
  unfold fromTwo fromTwoFails
  rcases hm0 : match_triple t0 with _ | ⟨i0, p0, v0⟩
  · simp [hm0]
  · rcases hm1 : match_triple t1 with _ | ⟨i1, p1, v1⟩
    · simp [hm0, hm1]
    · simp only [hm0, hm1]
      by_cases hi : i0 = i1
      · subst hi
        simp only [if_pos rfl]
        rcases hp : parseNat? i0 u64max with _ | idv
        · simp [hp]
        · simp only [hp]
          by_cases hpred : p0 = "namespace".data
          · rcases hv0 : parseNat? v0 u32max with _ | ns2
            · simp [hpred, hv0]
            · simp [hpred, hv0]
          · rcases hv1 : parseNat? v1 u32max with _ | ns2
            · simp [hpred, hv1]
            · simp [hpred, hv1]
      · simp [hi]

/-- Counterexample to C8 as stated: a list whose first two usable lines
are a perfectly decodable namespace and title pair with equal ids, plus a
third junk line; the claim says the third line cannot affect success, but
from_rdf fails on it because the shape check in the source runs over every
usable line. -/
theorem C8_counterexample :
    Page.from_rdf (["<1> <namespace> \"0\" .", "<1> <title> \"T\" .", "x"].map String.data)
      = .error .RDF
    ∧ (usableTrimmed (["<1> <namespace> \"0\" .", "<1> <title> \"T\" .", "x"].map String.data)).length = 3
    ∧ fromTwo (("<1> <namespace> \"0\" .").data) (("<1> <title> \"T\" .").data)
        = .ok ⟨1, 0, "T".data⟩ := by
  exact ⟨rfl, rfl, rfl⟩

/-- C8 amended: after skipping empty and comment lines and trimming,
Page::from_rdf fails with the RDF error exactly when some usable line
(anywhere in the list, not only among the first two) fails the shape test,
fewer than two usable lines remain, either of the first two fails the
triple regex, their subjects differ, the subject overflows u64, or the
namespace-position value fails the u32 parse. -/
theorem C8_from_rdf_error_iff (triples : List Str) :
    Page.from_rdf triples = .error .RDF ↔ fromRdfFails triples = true := by
  unfold Page.from_rdf fromRdfFails
  rcases hall : (usableTrimmed triples).all shapeOk with _ | _
  · simp [hall]
  · rcases hus : usableTrimmed triples with _ | ⟨t0, ts⟩
    · rw [hus] at hall
      simp [hus, hall]
    · rcases ts with _ | ⟨t1, ts2⟩
      · rw [hus] at hall
        simp [hus, hall]
      · rw [hus] at hall
        have hlt : ¬ (ts2.length + 1 + 1 < 2) := by omega
        simp only [hus, hall]
        simp [hall, hlt]
        exact fromTwo_error_iff t0 t1

/-- C9: Page::from_sql returns the SQL schema error when the row is not
exactly 13 fields wide (the field-count failure) or when field 0 fails the
u64 parse or field 1 fails the u32 parse (the field-parse failures), and
otherwise returns Ok of the page built from fields 0, 1 and the normalized
field 2; the last conjunct shows the remaining ten fields do not influence
the successful result. -/
theorem C9_page_from_sql_spec (values : List Str) (v0 v1 v2 : Str) (rest : List Str)
    (i n : Nat) :
    (values.length ≠ 13 → Page.from_sql values = .error (.SQL values))
    ∧ (values = v0 :: v1 :: v2 :: rest → parseNat? v0 u64max = none →
        Page.from_sql values = .error (.SQL values))
    ∧ (values = v0 :: v1 :: v2 :: rest → parseNat? v0 u64max = some i →
        parseNat? v1 u32max = none →
        Page.from_sql values = .error (.SQL values))
    ∧ (values = v0 :: v1 :: v2 :: rest → values.length = 13 →
        parseNat? v0 u64max = some i → parseNat? v1 u32max = some n →
        Page.from_sql values = .ok ⟨i, n, clean_title v2⟩) := by
  refine ⟨?_, ?_, ?_, ?_⟩
  · intro hlen
    rcases values with _ | ⟨a, values⟩
    · rfl
    rcases values with _ | ⟨b, values⟩
    · rfl
    rcases values with _ | ⟨c, rest2⟩
    · rfl
    have hr : rest2.length ≠ 10 := by
      simp only [List.length_cons] at hlen
      omega
    simp only [Page.from_sql, if_pos hr]
  · intro hv h0
    subst hv
    by_cases hlen : rest.length ≠ 10
    · simp only [Page.from_sql, if_pos hlen]
    · simp only [Page.from_sql, if_neg hlen, h0]
  · intro hv h0 h1
    subst hv
    by_cases hlen : rest.length ≠ 10
    · simp only [Page.from_sql, if_pos hlen]
    · simp only [Page.from_sql, if_neg hlen, h0, h1]
  · intro hv hlen h0 h1
    subst hv
    have hr : ¬ rest.length ≠ 10 := by
      simp only [List.length_cons] at hlen
      omega
    simp only [Page.from_sql, if_neg hr, h0, h1]

/-- Witness for C9: a full 13-field row decodes to the expected page, and
a 1-field row is rejected with the SQL error. -/
theorem C9_page_from_sql_spec_witness :
    Page.from_sql ((["10", "0", "Foo_Bar", "a", "b", "c", "d", "e", "f", "g", "h", "i", "j"]).map String.data)
      = .ok ⟨10, 0, "Foo Bar".data⟩
    ∧ Page.from_sql (["1"].map String.data) = .error (.SQL (["1"].map String.data)) := by
  constructor
  · exact (C9_page_from_sql_spec _ ("10".data) ("0".data) ("Foo_Bar".data)
      ((["a", "b", "c", "d", "e", "f", "g", "h", "i", "j"]).map String.data) 10 0).2.2.2
      rfl rfl rfl rfl
  · exact (C9_page_from_sql_spec (["1"].map String.data) [] [] [] [] 0 0).1 (by decide)

/-- C10: title normalization replaces every underscore with a space, drops
every backslash, expands every double quote to backslash double-quote and
keeps every other character, in order: clean_title agrees with the
per-character mapping given by the claim. -/
theorem C10_clean_title_spec (s : Str) :
    clean_title s = (s.map cleanSpecChar).flatten := by
  unfold clean_title
  induction s with
  | nil => rfl
  | cons c cs ih =>
    simp only [cleanChars, List.map_cons, List.flatten, cleanSpecChar]
    split_ifs <;> simp [ih]
